import Mathlib

/-!
Verification of the citation bot in src/main.py against its specification.

The Python code is shallowly embedded: strings are `String` / `List Char`,
`None`-able values are `Option`, Python truthiness of optional strings is
made explicit (`pyTruthy`, `pyOrS`), and the two impure ingredients of the
formatters (the `today_dmy()` access date and the network fetches) are made
explicit parameters.  All definitions follow src/main.py line by line; the
external natural-language date parser (`dateutil.parser.parse`) is an
abstract parameter of `parse_year`.
-/

namespace CiteBot

/-- ASCII whitespace, the character set stripped by Python's `str.strip()`,
split on by `str.split()`, and matched by the regex class `\s` (ASCII part). -/
def pySpace (c : Char) : Bool :=
  c == ' ' || c == '\t' || c == '\n' || c == '\r' || c == '\x0b' || c == '\x0c'

/-- ASCII digit, the character set matched by the regex class `\d` (ASCII part). -/
def isDigitCh (c : Char) : Bool :=
  48 ≤ c.toNat && c.toNat ≤ 57

/-- Left strip: Python `str.lstrip()` on a character list. -/
def lstripL (cs : List Char) : List Char := cs.dropWhile pySpace

/-- Right strip: Python `str.rstrip()` on a character list. -/
def rstripL (cs : List Char) : List Char := (cs.reverse.dropWhile pySpace).reverse

/-- Python `str.strip()` on a character list. -/
def pystrip (cs : List Char) : List Char := rstripL (lstripL cs)

/-- Helper for `pywords`: accumulate the current word (reversed) while scanning. -/
def pywordsAux : List Char → List Char → List (List Char)
  | [], acc => if acc = [] then [] else [acc.reverse]
  | c :: cs, acc =>
    if pySpace c then
      if acc = [] then pywordsAux cs [] else acc.reverse :: pywordsAux cs []
    else
      pywordsAux cs (c :: acc)

/-- Python `str.split()` with no argument: split on whitespace runs, no empty words. -/
def pywords (cs : List Char) : List (List Char) := pywordsAux cs []

/-- Python `" ".join(...)` on character lists. -/
def joinSpace : List (List Char) → List Char
  | [] => []
  | [w] => w
  | w :: ws => w ++ ' ' :: joinSpace ws

/-- Python `", ".join(...)` on strings. -/
def joinCommaSpace : List String → String
  | [] => ""
  | [w] => w
  | w :: ws => w ++ ", " ++ joinCommaSpace ws

/-- Does `cs` start with the pattern `pat`? -/
def listStarts : List Char → List Char → Bool
  | [], _ => true
  | _ :: _, [] => false
  | p :: ps, c :: cs => p == c && listStarts ps cs

/-- Python substring containment `pat in cs`. -/
def substr (pat : List Char) : List Char → Bool
  | [] => listStarts pat []
  | c :: cs => listStarts pat (c :: cs) || substr pat cs

/-- Python truthiness of an optional string: `None` and `""` are falsy. -/
def pyTruthy : Option String → Bool
  | none => false
  | some s => match s.data with | [] => false | _ :: _ => true

/-- Python `a or b` on optional strings: `b` when `a` is `None` or empty. -/
def pyOrS (a b : Option String) : Option String :=
  match a with
  | none => b
  | some s => match s.data with | [] => b | _ :: _ => some s

/-- Character-level translation of Python `html.escape(..., quote=False)`:
`&`, `<`, `>` become entities, every other character (quotes included) is kept. -/
def escChar (c : Char) : List Char :=
  if c == '&' then "&amp;".data
  else if c == '<' then "&lt;".data
  else if c == '>' then "&gt;".data
  else [c]

/-- src/main.py `html_escape`: `html.escape(s or "", quote=False)`. -/
def html_escape (s : Option String) : String :=
  String.mk (((match s with | none => "" | some t => t).data.map escChar).flatten)

/-- The year piece `f"({year})" if year else "(n.d.)"` used by all three
reference templates (Python truthiness: a `0` year would also print n.d.). -/
def yearTag (year : Option Int) : String :=
  match year with
  | none => "(n.d.)"
  | some n => if n = 0 then "(n.d.)" else "(" ++ toString n ++ ")"

/-- The year piece `str(year) if year else "n.d."` used by `build_intext`. -/
def yearInText (year : Option Int) : String :=
  match year with
  | none => "n.d."
  | some n => if n = 0 then "n.d." else toString n

/-- src/main.py `org_markers` inside `format_person_name` (note the leading
spaces on every marker except the ampersand). -/
def org_markers : List (List Char) :=
  [" inc".data, " ltd".data, " llc".data, " pte".data, "&".data,
   " company".data, " university".data, " gov".data, " ministry".data,
   " press".data, " bureau".data, " office".data, " department".data]

/-- The initials piece of `format_person_name`:
`" ".join([p[0].upper() + "." for p in parts[:-1] if p and p[0].isalpha()])`. -/
def initialsOf (parts : List (List Char)) : List Char :=
  joinSpace (parts.dropLast.filterMap (fun p =>
    match p with
    | [] => none
    | c :: _ => if c.isAlpha then some [c.toUpper, '.'] else none))

/-- Body of src/main.py `format_person_name` on the character list of a
non-`None` input (ASCII model of `str.lower` / `str.isalpha` / `str.upper`). -/
def fCore (cs : List Char) : Option (List Char) :=
  if cs = [] then none
  else if (pystrip cs).any (fun c => c == ',')
          || org_markers.any (fun m => substr m ((pystrip cs).map Char.toLower)) then
    some (pystrip cs)
  else if (pywords (pystrip cs)).length < 2 then
    some (pystrip cs)
  else
    some ((pywords (pystrip cs)).getLastD [] ++ ',' :: ' ' :: initialsOf (pywords (pystrip cs)))

/-- src/main.py `format_person_name` (input and output may be `None`). -/
def format_person_name (name : Option String) : Option String :=
  match name with
  | none => none
  | some s => (fCore s.data).map (fun l => String.mk l)

/-- Leftmost-match scan: try a matcher at every start position, first hit wins.
This is the search strategy of Python `re.search`. -/
def scanFirst {α : Type} (m : List Char → Option α) : List Char → Option α
  | [] => m []
  | c :: cs =>
    match m (c :: cs) with
    | some r => some r
    | none => scanFirst m cs

/-- Character admitted by the regex class `[^\s<>"]` of `extract_doi`
(everything except whitespace, angle brackets and the double quote). -/
def doiTokenChar (c : Char) : Bool :=
  !(pySpace c || c == '<' || c == '>' || c == '"')

/-- Anchored match of the `extract_doi` regex `10\.\d{4,9}/[^\s<>"]+` at the
head of the list, with the greedy backtracking semantics of Python `re`:
the digit run must be 4 to 9 long and immediately followed by `/`, and the
token after `/` is the maximal nonempty run of `doiTokenChar`s. -/
def matchDoiAt : List Char → Option (List Char)
  | c1 :: c2 :: c3 :: rest =>
    if c1 = '1' ∧ c2 = '0' ∧ c3 = '.' then
      if 4 ≤ (rest.takeWhile isDigitCh).length ∧ (rest.takeWhile isDigitCh).length ≤ 9 then
        match rest.drop (rest.takeWhile isDigitCh).length with
        | c4 :: t =>
          if c4 = '/' then
            match t.takeWhile doiTokenChar with
            | [] => none
            | tok0 :: toks =>
              some (c1 :: c2 :: c3 :: (rest.takeWhile isDigitCh ++ c4 :: tok0 :: toks))
          else none
        | [] => none
      else none
    else none
  | _ => none

/-- src/main.py `extract_doi`: first match of `10\.\d{4,9}/[^\s<>"]+`
(the `if not text: return None` guard, then `re.search`). -/
def extract_doi (text : String) : Option String :=
  if text.data = [] then none
  else (scanFirst matchDoiAt text.data).map (fun l => String.mk l)

/-- Anchored match of the `parse_year` fallback regex `(19|20)\d{2}`. -/
def matchYearAt : List Char → Option Nat
  | c1 :: c2 :: c3 :: c4 :: _ =>
    if ((c1 = '1' ∧ c2 = '9') ∨ (c1 = '2' ∧ c2 = '0'))
        ∧ isDigitCh c3 = true ∧ isDigitCh c4 = true then
      some ((c1.toNat - 48) * 1000 + (c2.toNat - 48) * 100
            + (c3.toNat - 48) * 10 + (c4.toNat - 48))
    else none
  | _ => none

/-- First match of `(19|20)\d{2}` in a string (the `re.search` of `parse_year`). -/
def findYear (cs : List Char) : Option Nat := scanFirst matchYearAt cs

/-- src/main.py `parse_year`.  The external natural-language parser
`dateutil.parser.parse(s, fuzzy=True)` (returning `dt.year`, with both a
`None` result and a raised exception collapsed to `none`) is the abstract
parameter `dateParse`. -/
def parse_year (dateParse : String → Option Int) (s : String) : Option Int :=
  if s.data = [] then none
  else
    match dateParse s with
    | some y => some y
    | none => (findYear s.data).map Int.ofNat

/-- Anchored match of the `detect_nber_wp` regex `/papers/w(\d+)`, returning
capture group 1 (the maximal digit run, at least one digit). -/
def matchNberAt : List Char → Option (List Char)
  | x1 :: x2 :: x3 :: x4 :: x5 :: x6 :: x7 :: x8 :: x9 :: rest =>
    if x1 = '/' ∧ x2 = 'p' ∧ x3 = 'a' ∧ x4 = 'p' ∧ x5 = 'e' ∧ x6 = 'r' ∧ x7 = 's'
        ∧ x8 = '/' ∧ x9 = 'w' then
      match rest.takeWhile isDigitCh with
      | [] => none
      | d0 :: ds => some (d0 :: ds)
    else none
  | _ => none

/-- src/main.py `detect_nber_wp`: digits of the first `/papers/w<digits>`
path segment, or `None`. -/
def detect_nber_wp (url : String) : Option String :=
  (scanFirst matchNberAt url.data).map (fun l => String.mk l)

/-- Helper for `netloc`: the characters after the first `//`. -/
def afterScheme : List Char → List Char
  | [] => []
  | c :: cs =>
    match cs with
    | [] => []
    | c2 :: rest => if c = '/' ∧ c2 = '/' then rest else afterScheme cs

/-- Model of `urllib.parse.urlparse(url).netloc` as used in src/main.py:
for a `scheme://host/...` URL this is the host part, the run after the first
`//` up to the next `/`, `?` or `#`. -/
def netloc (url : String) : String :=
  String.mk ((afterScheme url.data).takeWhile (fun c => !(c == '/' || c == '?' || c == '#')))

/-- Python `str.rstrip()` on a string. -/
def pyRstrip (s : String) : String := String.mk (rstripL s.data)

/-- Does the string end in a period (Python `str.endswith(".")`)? -/
def endsDot (s : String) : Bool :=
  match s.data.getLast? with
  | some c => c == '.'
  | none => false

/-- src/main.py `build_rmit_web`.  The impure `today_dmy()` access date is the
explicit parameter `accessed`. -/
def build_rmit_web (accessed : String) (author_display : Option String)
    (year : Option Int) (title site_name : Option String) (url : String) : String :=
  html_escape author_display ++ " " ++ yearTag year
    ++ " <i>" ++ html_escape (pyOrS title (some url)) ++ "</i>, "
    ++ html_escape (pyOrS site_name (some (netloc url))) ++ " website, accessed "
    ++ accessed ++ ". " ++ html_escape (some url) ++ "."

/-- src/main.py `build_rmit_working_paper` (`accessed` models `today_dmy()`). -/
def build_rmit_working_paper (accessed : String) (author_display : Option String)
    (year : Option Int) (title series publisher : Option String) (url : String) : String :=
  html_escape author_display ++ " " ++ yearTag year
    ++ " <i>" ++ html_escape (pyOrS title (some url)) ++ "</i>, "
    ++ html_escape series ++ ", " ++ html_escape publisher ++ ", accessed "
    ++ accessed ++ ". " ++ html_escape (some url) ++ "."

/-- src/main.py `build_rmit_journal_article` (`accessed` models `today_dmy()`).
Note that `volume`, `issue` and `pages` are interpolated unescaped, exactly as
in the source. -/
def build_rmit_journal_article (accessed : String) (author_display : Option String)
    (year : Option Int) (title journal volume issue pages : Option String)
    (url_or_doi : Option String) : String :=
  let vol_issue : String :=
    if pyTruthy volume && pyTruthy issue then (volume.getD "") ++ "(" ++ (issue.getD "") ++ ")"
    else if pyTruthy volume then volume.getD ""
    else ""
  let tail : String :=
    joinCommaSpace ((if vol_issue.data = [] then [] else [vol_issue])
      ++ (match pages with
          | none => []
          | some p => match p.data with | [] => [] | _ :: _ => [p]))
  let theEnd : String := pyRstrip (", accessed " ++ accessed ++ ". " ++ html_escape url_or_doi)
  let core : String :=
    html_escape author_display ++ " " ++ yearTag year
      ++ " \x27" ++ html_escape title ++ "\x27, <i>"
      ++ html_escape (pyOrS journal (some "Journal")) ++ "</i>"
  let core2 : String := if tail.data = [] then core else core ++ ", " ++ tail
  if endsDot theEnd then core2 ++ theEnd else core2 ++ theEnd ++ "."

/-- Whitespace-run collapse, the `re.sub(r"\s+", " ", lead)` of `build_intext`. -/
def collapseWs : List Char → List Char
  | [] => []
  | [c] => if pySpace c then [' '] else [c]
  | c :: d :: cs =>
    if pySpace c && pySpace d then collapseWs (d :: cs)
    else (if pySpace c then ' ' else c) :: collapseWs (d :: cs)

/-- src/main.py `build_intext` (the Python version raises on a `None`
`author_display`; it is only reachable with a string). -/
def build_intext (author_display : String) (year : Option Int) : String :=
  let lead0 : List Char :=
    if author_display.data.any (fun c => c == ',')
    then author_display.data.takeWhile (fun c => !(c == ','))
    else author_display.data
  let lead : List Char := pystrip (collapseWs lead0)
  "(" ++ html_escape (some (String.mk lead)) ++ " " ++ yearInText year ++ ")"

/-- The three reference templates of §4.5 (the classification decision of
`citedoi` / `auto_cite`). -/
inductive Template
  | journal_article
  | working_paper
  | web
deriving DecidableEq

/-- The template decision duplicated at src/main.py lines 331-345, 366-381 and
402-417: journal when `container and (volume or pages)`, else working paper
when `series`, else web — with Python truthiness on the fields. -/
def chooseTemplate (container volume pages series : Option String) : Template :=
  if pyTruthy container && (pyTruthy volume || pyTruthy pages) then Template.journal_article
  else if pyTruthy series then Template.working_paper
  else Template.web

/-- The dictionary returned by src/main.py `scrape_citation_bits` (the fields
consumed by `auto_cite`'s URL branch). -/
structure ScrapedBits where
  title : Option String
  site_name : Option String
  author_display : Option String
  year : Option Int
  doi_meta : Option String
  nber_no : Option String

/-- The author fallback chain of `scrape_citation_bits` (line 235-236):
`format_person_name(author_meta or site_name or host)`. -/
def author_display_scrape (author_meta site_name : Option String) (host : String) : Option String :=
  format_person_name (pyOrS (pyOrS author_meta site_name) (some host))

/-- Outcome of `auto_cite`'s URL branch: either re-route to the DOI path
(page exposed an extractable DOI meta tag) or build a reference with one of
the templates. -/
inductive UrlOutcome
  | doiRoute (doi : String)
  | cited (template : Template) (reference : String)
deriving DecidableEq

/-- src/main.py `auto_cite` lines 397-432, the decision on a scraped page:
prefer an extractable DOI from the `citation_doi` meta tag; otherwise the
NBER working-paper tweak (series `NBER Working Paper No. <n>`, publisher
`National Bureau of Economic Research`); otherwise the web template. -/
def urlRoute (bits : ScrapedBits) (url accessed : String) : UrlOutcome :=
  match (match bits.doi_meta with
         | none => none
         | some dm => match dm.data with
                      | [] => none
                      | _ :: _ => extract_doi dm) with
  | some doi => UrlOutcome.doiRoute doi
  | none =>
    match bits.nber_no with
    | some n =>
      match n.data with
      | [] =>
        UrlOutcome.cited Template.web
          (build_rmit_web accessed bits.author_display bits.year bits.title bits.site_name url)
      | _ :: _ =>
        UrlOutcome.cited Template.working_paper
          (build_rmit_working_paper accessed bits.author_display bits.year bits.title
            (some ("NBER Working Paper No. " ++ n))
            (some "National Bureau of Economic Research") url)
    | none =>
      UrlOutcome.cited Template.web
        (build_rmit_web accessed bits.author_display bits.year bits.title bits.site_name url)

/-- The four failure kinds of `auto_cite`'s URL branch (src/main.py 435-454):
`requests.exceptions.HTTPError`, `ConnectionError`, `Timeout`, and the
catch-all `Exception` handler. -/
inductive FetchFailure
  | httpError
  | connectionError
  | timeoutError
  | otherError
deriving DecidableEq

/-- The user-facing message each failure handler replies with, verbatim from
src/main.py `auto_cite` lines 435-454. -/
def failureMessage : FetchFailure → String
  | FetchFailure.httpError =>
      "That site refused the request (HTTP error). If this is a journal article (e.g., ScienceDirect/Wiley), please paste the DOI (like 10.xxxx/xxxxx) or a doi.org link."
  | FetchFailure.connectionError =>
      "Network error trying to reach that site. Check your internet or try again. If it’s a journal article, paste the DOI instead."
  | FetchFailure.timeoutError =>
      "Timed out fetching that page. If it’s an academic article, paste the DOI."
  | FetchFailure.otherError =>
      "Sorry, I couldn’t build a citation for that page. If it’s academic, paste the DOI; otherwise you can /fix author=... year=... title=... site=..."

/-- Helper for `splitComma`. -/
def splitCommaAux : List Char → List Char → List (List Char)
  | [], acc => [acc.reverse]
  | c :: cs, acc =>
    if c = ',' then acc.reverse :: splitCommaAux cs []
    else splitCommaAux cs (c :: acc)

/-- The comma-separated segments of a character list. -/
def splitComma (cs : List Char) : List (List Char) := splitCommaAux cs []

/-- Well-formedness of a rendered sentence as demanded by the spec: no
dangling separators, i.e. every comma-separated segment contains at least one
non-whitespace character. -/
def noDanglingB (cs : List Char) : Bool :=
  (splitComma cs).all (fun seg => seg.any (fun c => !(pySpace c)))

/-! Helper lemmas about the Python string primitives. -/

theorem mem_dropWhile_of_neg {p : Char → Bool} {c : Char} (hc : p c = false) :
    ∀ {l : List Char}, c ∈ l → c ∈ l.dropWhile p := by
  intro l hl
  induction l with
  | nil => exact absurd hl (List.not_mem_nil c)
  | cons d ds ih =>
    by_cases hd : p d = true
    · rw [List.dropWhile_cons, if_pos hd]
      rcases List.mem_cons.mp hl with h | h
      · subst h; rw [hd] at hc; cases hc
      · exact ih h
    · rw [List.dropWhile_cons, if_neg hd]
      exact hl

theorem dropWhile_dropWhile (p : Char → Bool) (l : List Char) :
    (l.dropWhile p).dropWhile p = l.dropWhile p := by
  induction l with
  | nil => rfl
  | cons d ds ih =>
    by_cases hd : p d = true
    · rw [List.dropWhile_cons, if_pos hd, ih]
    · rw [List.dropWhile_cons, if_neg hd, List.dropWhile_cons, if_neg hd]

theorem lstripL_idem (l : List Char) : lstripL (lstripL l) = lstripL l :=
  dropWhile_dropWhile pySpace l

theorem rstripL_idem (l : List Char) : rstripL (rstripL l) = rstripL l := by
  unfold rstripL
  rw [List.reverse_reverse, dropWhile_dropWhile]

theorem rstripL_pre (l : List Char) : ∃ t, l = rstripL l ++ t := by
  refine ⟨(l.reverse.takeWhile pySpace).reverse, ?_⟩
  unfold rstripL
  calc l = l.reverse.reverse := (List.reverse_reverse l).symm
    _ = ((l.reverse.takeWhile pySpace) ++ (l.reverse.dropWhile pySpace)).reverse := by
          rw [List.takeWhile_append_dropWhile]
    _ = (l.reverse.dropWhile pySpace).reverse ++ (l.reverse.takeWhile pySpace).reverse := by
          rw [List.reverse_append]

theorem lstripL_rstripL (l : List Char) (h : lstripL l = l) :
    lstripL (rstripL l) = rstripL l := by
  obtain ⟨t, ht⟩ := rstripL_pre l
  cases hr : rstripL l with
  | nil => rfl
  | cons x xs =>
    have hx : pySpace x = false := by
      rw [hr] at ht
      by_contra hpx
      have hpx' : pySpace x = true := by revert hpx; cases pySpace x <;> simp
      have h2 : lstripL l = lstripL (xs ++ t) := by
        rw [ht]; show lstripL (x :: (xs ++ t)) = _
        unfold lstripL
        rw [List.dropWhile_cons, if_pos hpx']
      rw [h, ht] at h2
      have hlen : (lstripL (xs ++ t)).length ≤ (xs ++ t).length :=
        (List.dropWhile_sublist pySpace).length_le
      rw [← h2] at hlen
      simp at hlen
    show lstripL (x :: xs) = x :: xs
    unfold lstripL
    rw [List.dropWhile_cons, if_neg (by rw [hx]; exact Bool.false_ne_true)]

theorem pystrip_idem (l : List Char) : pystrip (pystrip l) = pystrip l := by
  unfold pystrip
  rw [lstripL_rstripL _ (lstripL_idem l), rstripL_idem]

theorem mem_rstripL {c : Char} {l : List Char} (hc : pySpace c = false) (h : c ∈ l) :
    c ∈ rstripL l := by
  unfold rstripL
  rw [List.mem_reverse]
  exact mem_dropWhile_of_neg hc (List.mem_reverse.mpr h)

theorem mem_pystrip {c : Char} {l : List Char} (hc : pySpace c = false) (h : c ∈ l) :
    c ∈ pystrip l :=
  mem_rstripL hc (mem_dropWhile_of_neg hc h)

theorem listStarts_append (p r : List Char) : listStarts p (p ++ r) = true := by
  induction p with
  | nil => rfl
  | cons x xs ih => simp [listStarts, ih]

theorem substr_nil_pat (l : List Char) : substr [] l = true := by
  cases l <;> simp [substr, listStarts]

theorem substr_head {pat l : List Char} (h : listStarts pat l = true) : substr pat l = true := by
  cases l with
  | nil =>
    cases pat with
    | nil => rfl
    | cons p ps => simp [listStarts] at h
  | cons c cs => simp [substr, h]

theorem substr_extend {pat m : List Char} (x : List Char) (h : substr pat m = true) :
    substr pat (x ++ m) = true := by
  induction x with
  | nil => exact h
  | cons c cs ih => simp [substr, ih]

theorem substr_mid (x pat y : List Char) : substr pat (x ++ pat ++ y) = true := by
  rw [List.append_assoc]
  exact substr_extend x (substr_head (listStarts_append pat y))

theorem substr_single {c : Char} {l : List Char} (h : c ∈ l) : substr [c] l = true := by
  induction l with
  | nil => exact absurd h (List.not_mem_nil c)
  | cons d ds ih =>
    rcases List.mem_cons.mp h with h1 | h1
    · subst h1; simp [substr, listStarts]
    · simp [substr, ih h1]

@[simp] theorem data_mk (l : List Char) : (String.mk l).data = l := rfl

/-! Lemmas about `format_person_name`. -/

theorem fCore_comma {cs : List Char} (h : ',' ∈ cs) : fCore cs = some (pystrip cs) := by
  have hne : cs ≠ [] := List.ne_nil_of_mem h
  have hany : (pystrip cs).any (fun c => c == ',') = true :=
    List.any_eq_true.mpr ⟨',', mem_pystrip (by decide) h, by simp⟩
  unfold fCore
  rw [if_neg hne, if_pos (by simp [hany])]

theorem fCore_stripped (w : List Char) (hw : pystrip w = w) (hne : w ≠ []) :
    fCore w =
      if (w.any (fun c => c == ',')
          || org_markers.any (fun m => substr m (w.map Char.toLower))) = true
      then some w
      else if (pywords w).length < 2 then some w
      else some ((pywords w).getLastD [] ++ ',' :: ' ' :: initialsOf (pywords w)) := by
  unfold fCore
  rw [if_neg hne, hw]

theorem fCore_step {cs v : List Char} (h : fCore cs = some v) :
    fCore v = none ∨ ∃ r, fCore v = some r ∧ fCore r = some r := by
  have hne : cs ≠ [] := by rintro rfl; simp [fCore] at h
  unfold fCore at h
  rw [if_neg hne] at h
  by_cases h1 : ((pystrip cs).any (fun c => c == ',')
      || org_markers.any (fun m => substr m ((pystrip cs).map Char.toLower))) = true
  · rw [if_pos h1] at h
    injection h with hv
    have hfix : pystrip v = v := by rw [← hv, pystrip_idem]
    by_cases hvnil : v = []
    · left; rw [hvnil]; rfl
    · right
      rw [hv] at h1
      refine ⟨v, ?_, ?_⟩ <;> rw [fCore_stripped v hfix hvnil, if_pos h1]
  · rw [if_neg h1] at h
    by_cases h2 : (pywords (pystrip cs)).length < 2
    · rw [if_pos h2] at h
      injection h with hv
      have hfix : pystrip v = v := by rw [← hv, pystrip_idem]
      by_cases hvnil : v = []
      · left; rw [hvnil]; rfl
      · right
        rw [hv] at h1 h2
        refine ⟨v, ?_, ?_⟩ <;> rw [fCore_stripped v hfix hvnil, if_neg h1, if_pos h2]
    · rw [if_neg h2] at h
      injection h with hv
      have hcv : ',' ∈ v := by
        rw [← hv]; exact List.mem_append_right _ (List.mem_cons_self _ _)
      right
      refine ⟨pystrip v, fCore_comma hcv, ?_⟩
      have hcv2 : ',' ∈ pystrip v := mem_pystrip (by decide) hcv
      rw [fCore_comma hcv2, pystrip_idem]

/-! Claims C4 and C5: idempotence and the organisation markers of
`format_person_name`. -/

/-- Claim C4, counterexample: author-name normalization is NOT idempotent.
On the whitespace-only input `" "` one application yields the empty string
(the strip happens after the emptiness test), but a second application turns
the empty string into `None`. -/
theorem claim_C4_counterexample :
    format_person_name (format_person_name (some " ")) ≠ format_person_name (some " ") := by
  decide

/-- Claim C4, amended: applying `format_person_name` twice is an idempotent
operation — `normalize (normalize (normalize x)) = normalize (normalize x)`
for every input — while single-application idempotence fails (see the
counterexample). -/
theorem claim_C4_amended (o : Option String) :
    format_person_name (format_person_name (format_person_name o))
      = format_person_name (format_person_name o) := by
  cases o with
  | none => rfl
  | some s =>
    cases hf : fCore s.data with
    | none => simp [format_person_name, hf]
    | some v =>
      rcases fCore_step hf with h0 | ⟨r, hr1, hr2⟩
      · simp [format_person_name, hf, h0]
      · simp [format_person_name, hf, hr1, hr2]

/-- Claim C5, counterexample: inputs containing "University"
(case-insensitively) are NOT always left unchanged — every marker except the
ampersand carries a leading space, so a sentence-initial "University" does
not match — and "World Health Organization" is NOT left unchanged (no marker
of the fixed set occurs in it). -/
theorem claim_C5_counterexample :
    format_person_name (some "University of Melbourne") = some "Melbourne, U. O."
    ∧ format_person_name (some "University of Melbourne") ≠ some "University of Melbourne"
    ∧ format_person_name (some "World Health Organization") = some "Organization, W. H."
    ∧ format_person_name (some "World Health Organization") ≠ some "World Health Organization" := by
  refine ⟨by decide, by decide, by decide, by decide⟩

/-- Claim C5, amended: a stripped input containing a comma, an ampersand, or
the marker " university" (leading space, case-insensitive) is returned
unchanged; "Greta Thunberg" becomes "Thunberg, G."; but a leading
"University" is not a marker ("University of Melbourne" becomes
"Melbourne, U. O.") and "World Health Organization" matches no marker and
becomes "Organization, W. H.". -/
theorem claim_C5_amended :
    (∀ s : String, pystrip s.data = s.data → s.data ≠ [] →
      (',' ∈ s.data ∨ '&' ∈ s.data
        ∨ substr " university".data (s.data.map Char.toLower) = true) →
      format_person_name (some s) = some s)
    ∧ format_person_name (some "Greta Thunberg") = some "Thunberg, G."
    ∧ format_person_name (some "University of Melbourne") = some "Melbourne, U. O."
    ∧ format_person_name (some "World Health Organization") = some "Organization, W. H." := by
  refine ⟨?_, by decide, by decide, by decide⟩
  intro s hstrip hne hcond
  have hone : ((pystrip s.data).any (fun c => c == ',')
      || org_markers.any (fun m => substr m ((pystrip s.data).map Char.toLower))) = true := by
    rw [hstrip]
    rw [Bool.or_eq_true]
    rcases hcond with h | h | h
    · exact Or.inl (List.any_eq_true.mpr ⟨',', h, by simp⟩)
    · refine Or.inr ?_
      refine List.any_eq_true.mpr ⟨"&".data, by simp [org_markers], ?_⟩
      exact substr_single (List.mem_map.mpr ⟨'&', h, by decide⟩)
    · refine Or.inr ?_
      exact List.any_eq_true.mpr ⟨" university".data, by simp [org_markers], h⟩
  show (fCore s.data).map (fun l => String.mk l) = some s
  unfold fCore
  rw [if_neg hne, if_pos hone, hstrip]
  rfl

/-- Claim C5, witness for the amended theorem at the input "Acme & Co". -/
theorem claim_C5_witness : format_person_name (some "Acme & Co") = some "Acme & Co" :=
  claim_C5_amended.1 "Acme & Co" (by decide) (by decide)
    (Or.inr (Or.inl (by decide)))

/-- Claim C1: template selection is a pure function of the record fields —
`journal_article` exactly when a (truthy) container and at least one of
volume or pages are present; otherwise `working_paper` exactly when a series
label is present; otherwise `web`. -/
theorem claim_C1_template_selection (c v p sr : Option String) :
    (chooseTemplate c v p sr = Template.journal_article
      ↔ (pyTruthy c = true ∧ (pyTruthy v = true ∨ pyTruthy p = true)))
    ∧ (chooseTemplate c v p sr = Template.working_paper
      ↔ (¬(pyTruthy c = true ∧ (pyTruthy v = true ∨ pyTruthy p = true))
          ∧ pyTruthy sr = true))
    ∧ (chooseTemplate c v p sr = Template.web
      ↔ (¬(pyTruthy c = true ∧ (pyTruthy v = true ∨ pyTruthy p = true))
          ∧ pyTruthy sr = false)) := by
  unfold chooseTemplate
  cases hc : pyTruthy c <;> cases hv : pyTruthy v <;> cases hp : pyTruthy p <;>
    cases hsr : pyTruthy sr <;> simp

/-- Claim C1, witness: a record with container and volume is classified as a
journal article. -/
theorem claim_C1_witness :
    chooseTemplate (some "Marine Policy") (some "158") none none = Template.journal_article :=
  (claim_C1_template_selection (some "Marine Policy") (some "158") none none).1.mpr
    ⟨rfl, Or.inl rfl⟩

/-- Claim C9: the four page-fetch failure kinds map to pairwise distinct
user-facing messages; the HTTP-error message suggests supplying a DOI and
differs from the timeout message. -/
theorem claim_C9_errors :
    (∀ e1 e2 : FetchFailure, failureMessage e1 = failureMessage e2 → e1 = e2)
    ∧ substr "DOI".data (failureMessage FetchFailure.httpError).data = true
    ∧ failureMessage FetchFailure.httpError ≠ failureMessage FetchFailure.timeoutError := by
  refine ⟨?_, by decide, by decide⟩
  intro e1 e2 h
  cases e1 <;> cases e2 <;> first | rfl | exact absurd h (by decide)

/-- Claim C9, witness: the injectivity part applied at the HTTP-error kind. -/
theorem claim_C9_witness : FetchFailure.httpError = FetchFailure.httpError :=
  claim_C9_errors.1 FetchFailure.httpError FetchFailure.httpError rfl

/-! Lemmas about the `re.search`-style leftmost scan. -/

theorem scanFirst_eq_none {α : Type} {m : List Char → Option α} :
    ∀ {cs : List Char}, scanFirst m cs = none ↔ ∀ i, m (cs.drop i) = none := by
  intro cs
  induction cs with
  | nil =>
    constructor
    · intro h i; simpa [List.drop_nil] using h
    · intro h; simpa using h 0
  | cons c cs ih =>
    cases hm : m (c :: cs) with
    | some r =>
      simp only [scanFirst, hm]
      constructor
      · intro h; cases h
      · intro h; have h0 := h 0; rw [List.drop_zero] at h0; rw [h0] at hm; cases hm
    | none =>
      simp only [scanFirst, hm]
      rw [ih]
      constructor
      · intro h i
        cases i with
        | zero => rw [List.drop_zero]; exact hm
        | succ j => rw [List.drop_succ_cons]; exact h j
      · intro h j
        have := h (j + 1)
        rwa [List.drop_succ_cons] at this

theorem scanFirst_some {α : Type} {m : List Char → Option α} {r : α} :
    ∀ {cs : List Char}, scanFirst m cs = some r →
      ∃ i, m (cs.drop i) = some r ∧ ∀ j, j < i → m (cs.drop j) = none := by
  intro cs
  induction cs with
  | nil =>
    intro h
    exact ⟨0, by simpa using h, fun j hj => absurd hj (Nat.not_lt_zero j)⟩
  | cons c cs ih =>
    intro h
    cases hm : m (c :: cs) with
    | some r2 =>
      simp only [scanFirst, hm] at h
      injection h with h'
      subst h'
      exact ⟨0, by simpa using hm, fun j hj => absurd hj (Nat.not_lt_zero j)⟩
    | none =>
      simp only [scanFirst, hm] at h
      obtain ⟨i, h1, h2⟩ := ih h
      refine ⟨i + 1, by rwa [List.drop_succ_cons], ?_⟩
      intro j hj
      cases j with
      | zero => rw [List.drop_zero]; exact hm
      | succ k => rw [List.drop_succ_cons]; exact h2 k (by omega)

theorem takeWhile_all_append {p : Char → Bool} {ds : List Char}
    (hds : ∀ x ∈ ds, p x = true) {y : Char} (hy : p y = false) (r : List Char) :
    (ds ++ y :: r).takeWhile p = ds := by
  induction ds with
  | nil => simp [List.takeWhile_cons, hy]
  | cons d dt ih =>
    have hd : p d = true := hds d (List.mem_cons_self d dt)
    simp only [List.cons_append, List.takeWhile_cons, hd, if_true]
    rw [ih (fun x hx => hds x (List.mem_cons_of_mem d hx))]

/-- The specification-side pattern of `extract_doi`: a `10.` prefix, 4 to 9
digits, a slash, then at least one admitted token character. -/
def specDoiAt (cs : List Char) : Prop :=
  ∃ ds c t, cs = '1' :: '0' :: '.' :: (ds ++ '/' :: c :: t)
    ∧ (∀ x ∈ ds, isDigitCh x = true) ∧ 4 ≤ ds.length ∧ ds.length ≤ 9
    ∧ doiTokenChar c = true

theorem specDoiAt_nil : ¬ specDoiAt [] := by
  rintro ⟨ds, c, t, h, -⟩
  cases h

theorem matchDoiAt_shape {cs l : List Char} (h : matchDoiAt cs = some l) :
    ∃ ds tok, l = '1' :: '0' :: '.' :: (ds ++ '/' :: tok)
      ∧ (∀ x ∈ ds, isDigitCh x = true) ∧ 4 ≤ ds.length ∧ ds.length ≤ 9
      ∧ tok ≠ [] ∧ ∀ x ∈ tok, doiTokenChar x = true := by
  unfold matchDoiAt at h
  split at h
  · split at h
    · rename_i c1 c2 c3 rest h1
      split at h
      · rename_i h2
        split at h
        · rename_i c4 t hdrop
          split at h
          · rename_i h4
            split at h
            · cases h
            · rename_i tok0 toks htok
              injection h with h5
              obtain ⟨e1, e2, e3⟩ := h1
              subst e1; subst e2; subst e3; subst h4
              refine ⟨rest.takeWhile isDigitCh, tok0 :: toks, h5.symm,
                fun x hx => List.mem_takeWhile_imp hx, h2.1, h2.2, by simp, ?_⟩
              intro x hx
              rw [← htok] at hx
              exact List.mem_takeWhile_imp hx
          · cases h
        · cases h
      · cases h
    · cases h
  · cases h

theorem takeWhile_append_drop (p : Char → Bool) (l : List Char) :
    l.takeWhile p ++ l.drop (l.takeWhile p).length = l := by
  induction l with
  | nil => rfl
  | cons c cs ih =>
    rw [List.takeWhile_cons]
    by_cases hc : p c = true
    · rw [if_pos hc]
      simp only [List.length_cons, List.drop_succ_cons, List.cons_append]
      rw [ih]
    · rw [if_neg hc]
      simp

theorem takeWhile_eq_cons {p : Char → Bool} {t : List Char} {a : Char} {as : List Char}
    (h : t.takeWhile p = a :: as) : p a = true ∧ ∃ t2, t = a :: t2 := by
  cases t with
  | nil => cases h
  | cons b bs =>
    rw [List.takeWhile_cons] at h
    by_cases hb : p b = true
    · rw [if_pos hb] at h
      injection h with h1 h2
      subst h1
      exact ⟨hb, bs, rfl⟩
    · rw [if_neg hb] at h; cases h

theorem matchDoiAt_spec {cs l : List Char} (h : matchDoiAt cs = some l) : specDoiAt cs := by
  unfold matchDoiAt at h
  split at h
  · split at h
    · rename_i c1 c2 c3 rest h1
      split at h
      · rename_i h2
        split at h
        · rename_i c4 t hdrop
          split at h
          · rename_i h4
            split at h
            · cases h
            · rename_i tok0 toks htok
              obtain ⟨e1, e2, e3⟩ := h1
              subst e1; subst e2; subst e3; subst h4
              obtain ⟨hgood, t2, ht2⟩ := takeWhile_eq_cons htok
              have hrest : rest.takeWhile isDigitCh ++ '/' :: t = rest := by
                have := takeWhile_append_drop isDigitCh rest
                rwa [hdrop] at this
              refine ⟨rest.takeWhile isDigitCh, tok0, t2, ?_,
                fun x hx => List.mem_takeWhile_imp hx, h2.1, h2.2, hgood⟩
              rw [ht2] at hrest
              exact congrArg (fun x => '1' :: '0' :: '.' :: x) hrest.symm
          · cases h
        · cases h
      · cases h
    · cases h
  · cases h

theorem specDoiAt_isSome {cs : List Char} (h : specDoiAt cs) :
    (matchDoiAt cs).isSome = true := by
  obtain ⟨ds, c, t, hcs, hds, h4, h9, hc⟩ := h
  subst hcs
  have hslash : isDigitCh '/' = false := by decide
  have htw : (ds ++ '/' :: c :: t).takeWhile isDigitCh = ds :=
    takeWhile_all_append hds hslash (c :: t)
  have hdrop : (ds ++ '/' :: c :: t).drop ds.length = '/' :: c :: t :=
    List.drop_left ds ('/' :: c :: t)
  simp only [matchDoiAt, htw, hdrop]
  simp [h4, h9, hc, List.takeWhile_cons]

/-- Claim C3, counterexample: the identifier extractor does NOT exclude a
trailing period from the match — `.` is in the admitted token class
`[^\s<>"]` — so `<10.1234/abc.>` yields `10.1234/abc.` and not `10.1234/abc`. -/
theorem claim_C3_counterexample :
    extract_doi "See <10.1234/abc.>" = some "10.1234/abc."
    ∧ extract_doi "See <10.1234/abc.>" ≠ some "10.1234/abc" := by
  refine ⟨by decide, by decide⟩

/-- Claim C3, amended: `extract_doi` returns a match exactly when the input
contains a substring of the form `10.` + 4-9 digits + `/` + at least one
character outside whitespace/angle-brackets/double-quote; the match is the
leftmost, greedy one, so enclosing angle brackets and double quotes are
excluded but a trailing period (or any other punctuation in the class,
single quotes included) is part of the match; absence of a match yields
`none` rather than an error. -/
theorem claim_C3_amended (s : String) :
    ((extract_doi s).isSome = true ↔ ∃ i, specDoiAt (s.data.drop i))
    ∧ (∀ d, extract_doi s = some d →
        (∃ i, matchDoiAt (s.data.drop i) = some d.data
          ∧ ∀ j, j < i → matchDoiAt (s.data.drop j) = none)
        ∧ ∃ ds tok, d.data = '1' :: '0' :: '.' :: (ds ++ '/' :: tok)
            ∧ (∀ x ∈ ds, isDigitCh x = true) ∧ 4 ≤ ds.length ∧ ds.length ≤ 9
            ∧ tok ≠ [] ∧ ∀ x ∈ tok, doiTokenChar x = true) := by
  constructor
  · constructor
    · intro h
      by_cases hne : s.data = []
      · rw [extract_doi, if_pos hne] at h; cases h
      · rw [extract_doi, if_neg hne] at h
        cases hscan : scanFirst matchDoiAt s.data with
        | none => rw [hscan] at h; cases h
        | some l =>
          obtain ⟨i, hm, -⟩ := scanFirst_some hscan
          exact ⟨i, matchDoiAt_spec hm⟩
    · rintro ⟨i, hi⟩
      have hne : s.data ≠ [] := by
        intro h0
        rw [h0, List.drop_nil] at hi
        exact specDoiAt_nil hi
      rw [extract_doi, if_neg hne]
      cases hscan : scanFirst matchDoiAt s.data with
      | some l => rfl
      | none =>
        exfalso
        have hnone := scanFirst_eq_none.mp hscan i
        have h2 := specDoiAt_isSome hi
        rw [hnone] at h2
        cases h2
  · intro d hd
    have hne : s.data ≠ [] := by
      intro h0
      rw [extract_doi, if_pos h0] at hd
      cases hd
    rw [extract_doi, if_neg hne] at hd
    cases hscan : scanFirst matchDoiAt s.data with
    | none => rw [hscan] at hd; cases hd
    | some l =>
      rw [hscan, Option.map_some'] at hd
      injection hd with h2
      have hdl : d.data = l := by rw [← h2]
      obtain ⟨i, hm, hle⟩ := scanFirst_some hscan
      exact ⟨⟨i, by rw [hdl]; exact hm, hle⟩, by rw [hdl]; exact matchDoiAt_shape hm⟩

/-- Claim C3, witness for the amended theorem: a clean DOI is matched
(both directions of the iff and the shape clause at a concrete input). -/
theorem claim_C3_witness : (extract_doi "doi:10.12345/abc").isSome = true :=
  (claim_C3_amended "doi:10.12345/abc").1.mpr
    ⟨4, "12345".data, 'a', "bc".data, by decide, by decide, by decide, by decide, by decide⟩

/-! Claim C7: year parsing. -/

theorem data_eq_nil {s : String} (h0 : s.data = []) : s = "" := by
  obtain ⟨d⟩ := s
  cases h0
  rfl

theorem matchYearAt_range {cs : List Char} {n : Nat} (h : matchYearAt cs = some n) :
    1900 ≤ n ∧ n ≤ 2099 := by
  match cs with
  | [] => cases h
  | [a] => cases h
  | [a, b] => cases h
  | [a, b, c] => cases h
  | c1 :: c2 :: c3 :: c4 :: rest =>
    simp only [matchYearAt] at h
    by_cases hcond : ((c1 = '1' ∧ c2 = '9') ∨ (c1 = '2' ∧ c2 = '0'))
        ∧ isDigitCh c3 = true ∧ isDigitCh c4 = true
    · rw [if_pos hcond] at h
      injection h with h5
      obtain ⟨h12, h3, h4⟩ := hcond
      have b3 : 48 ≤ c3.toNat ∧ c3.toNat ≤ 57 := by simpa [isDigitCh] using h3
      have b4 : 48 ≤ c4.toNat ∧ c4.toNat ≤ 57 := by simpa [isDigitCh] using h4
      rcases h12 with ⟨e1, e2⟩ | ⟨e1, e2⟩ <;> subst e1 <;> subst e2 <;>
        rw [← h5] <;>
        simp only [show ('1' : Char).toNat = 49 from rfl, show ('9' : Char).toNat = 57 from rfl,
          show ('2' : Char).toNat = 50 from rfl, show ('0' : Char).toNat = 48 from rfl] <;>
        omega
    · rw [if_neg hcond] at h
      cases h

/-- Claim C7: `parse_year` tries the natural-language date parser first; when
that fails it falls back to the first `(19|20)dd` match in the string (a value
between 1900 and 2099, at the leftmost matching position); an empty input or
no match at all yields no year, and an absent year is rendered `(n.d.)` by the
formatters. -/
theorem claim_C7_year_parsing :
    (∀ dp : String → Option Int, parse_year dp "" = none)
    ∧ (∀ (dp : String → Option Int) (s : String) (y : Int),
        s ≠ "" → dp s = some y → parse_year dp s = some y)
    ∧ (∀ (dp : String → Option Int) (s : String),
        s ≠ "" → dp s = none → parse_year dp s = (findYear s.data).map Int.ofNat)
    ∧ (∀ (s : String) (n : Nat), findYear s.data = some n →
        (1900 ≤ n ∧ n ≤ 2099)
        ∧ ∃ i, matchYearAt (s.data.drop i) = some n
            ∧ ∀ j, j < i → matchYearAt (s.data.drop j) = none)
    ∧ (∀ s : String, findYear s.data = none ↔ ∀ i, matchYearAt (s.data.drop i) = none)
    ∧ yearTag none = "(n.d.)"
    ∧ (∀ (accessed : String) (author title site : Option String) (url : String),
        substr "(n.d.)".data (build_rmit_web accessed author none title site url).data = true) := by
  refine ⟨?_, ?_, ?_, ?_, ?_, rfl, ?_⟩
  · intro dp; rfl
  · intro dp s y hs hdp
    have hne : s.data ≠ [] := fun h0 => hs (data_eq_nil h0)
    rw [parse_year, if_neg hne, hdp]
  · intro dp s hs hdp
    have hne : s.data ≠ [] := fun h0 => hs (data_eq_nil h0)
    rw [parse_year, if_neg hne, hdp]
  · intro s n h
    obtain ⟨i, hm, hle⟩ := scanFirst_some h
    exact ⟨matchYearAt_range hm, i, hm, hle⟩
  · intro s
    exact scanFirst_eq_none
  · intro accessed author title site url
    have hO : (build_rmit_web accessed author none title site url).data
        = ((html_escape author).data ++ " ".data)
          ++ ("(n.d.)".data
            ++ (" <i>" ++ html_escape (pyOrS title (some url)) ++ "</i>, "
                ++ html_escape (pyOrS site (some (netloc url))) ++ " website, accessed "
                ++ accessed ++ ". " ++ html_escape (some url) ++ ".").data) := by
      simp [build_rmit_web, yearTag, List.append_assoc]
    rw [hO]
    exact substr_extend _ (substr_head (listStarts_append _ _))

/-- Claim C7, witness: with a failing date parser, the fallback extracts the
first plausible year. -/
theorem claim_C7_witness : parse_year (fun _ => none) "circa 1985" = some 1985 := by
  have h := claim_C7_year_parsing.2.2.1 (fun _ => none) "circa 1985" (by decide) rfl
  rw [h]
  decide

/-! Claim C8: the NBER working-paper path. -/

theorem matchNberAt_shape {cs l : List Char} (h : matchNberAt cs = some l) :
    l ≠ [] ∧ ∀ x ∈ l, isDigitCh x = true := by
  unfold matchNberAt at h
  split at h
  · split at h
    · rename_i rest h1
      split at h
      · cases h
      · rename_i d0 ds htw
        injection h with h2
        subst h2
        refine ⟨by simp, ?_⟩
        intro x hx
        rw [← htw] at hx
        exact List.mem_takeWhile_imp hx
    · cases h
  · cases h

/-- Claim C8: with no DOI meta tag exposed, a URL carrying a `/papers/w<digits>`
segment is routed to the working-paper template with series label exactly
`NBER Working Paper No. <digits>` and publisher exactly
`National Bureau of Economic Research`; the digits are exactly those produced
by `detect_nber_wp`, which yields a nonempty all-digit capture. -/
theorem claim_C8_nber :
    (∀ (bits : ScrapedBits) (url accessed n : String),
      bits.doi_meta = none → bits.nber_no = some n → n.data ≠ [] →
      urlRoute bits url accessed
        = UrlOutcome.cited Template.working_paper
            (build_rmit_working_paper accessed bits.author_display bits.year bits.title
              (some ("NBER Working Paper No. " ++ n))
              (some "National Bureau of Economic Research") url))
    ∧ (∀ (url : String) (n : String), detect_nber_wp url = some n →
        n.data ≠ [] ∧ ∀ x ∈ n.data, isDigitCh x = true)
    ∧ detect_nber_wp "https://www.nber.org/papers/w12345" = some "12345" := by
  refine ⟨?_, ?_, by decide⟩
  · intro bits url accessed n h1 h2 h3
    cases hn : n.data with
    | nil => exact absurd hn h3
    | cons x xs => simp only [urlRoute, h1, h2, hn]
  · intro url n h
    simp only [detect_nber_wp] at h
    cases hscan : scanFirst matchNberAt url.data with
    | none => rw [hscan] at h; cases h
    | some l =>
      rw [hscan, Option.map_some'] at h
      injection h with h2
      have hdl : n.data = l := by rw [← h2]
      obtain ⟨i, hm, -⟩ := scanFirst_some hscan
      rw [hdl]
      exact matchNberAt_shape hm

/-- Claim C8, witness: the routing theorem applied to concrete scraped bits
for `https://www.nber.org/papers/w12345`. -/
theorem claim_C8_witness :
    urlRoute ⟨some "T", none, some "A", none, none, some "12345"⟩
        "https://www.nber.org/papers/w12345" "12 October 2025"
      = UrlOutcome.cited Template.working_paper
          (build_rmit_working_paper "12 October 2025" (some "A") none (some "T")
            (some ("NBER Working Paper No. " ++ "12345"))
            (some "National Bureau of Economic Research")
            "https://www.nber.org/papers/w12345") :=
  claim_C8_nber.1 ⟨some "T", none, some "A", none, none, some "12345"⟩
    "https://www.nber.org/papers/w12345" "12 October 2025" "12345" rfl rfl (by decide)

/-! Lemmas about `html_escape`. -/

theorem escChar_ne_nil (c : Char) : escChar c ≠ [] := by
  unfold escChar
  split_ifs <;> simp

theorem escChar_of_plain {c : Char} (h1 : c ≠ '&') (h2 : c ≠ '<') (h3 : c ≠ '>') :
    escChar c = [c] := by
  simp [escChar, h1, h2, h3]

theorem escape_id {cs : List Char}
    (h : ∀ c ∈ cs, c ≠ '&' ∧ c ≠ '<' ∧ c ≠ '>') :
    (cs.map escChar).flatten = cs := by
  induction cs with
  | nil => rfl
  | cons c cs ih =>
    obtain ⟨h1, h2, h3⟩ := h c (List.mem_cons_self c cs)
    rw [List.map_cons, List.flatten_cons, escChar_of_plain h1 h2 h3,
      ih (fun x hx => h x (List.mem_cons_of_mem c hx))]
    rfl

theorem mem_escape {c : Char} {cs : List Char} (hc : c ∈ cs)
    (h1 : c ≠ '&') (h2 : c ≠ '<') (h3 : c ≠ '>') :
    c ∈ (cs.map escChar).flatten := by
  refine List.mem_flatten.mpr ⟨escChar c, List.mem_map.mpr ⟨c, hc, rfl⟩, ?_⟩
  rw [escChar_of_plain h1 h2 h3]
  exact List.mem_singleton.mpr rfl

theorem escape_chars {c' : Char} {cs : List Char}
    (h : c' ∈ (cs.map escChar).flatten) :
    c' ∈ cs ∨ c' ∈ ['&', 'a', 'm', 'p', ';', 'l', 't', 'g'] := by
  obtain ⟨l, hl, hc'⟩ := List.mem_flatten.mp h
  obtain ⟨c, hc, rfl⟩ := List.mem_map.mp hl
  unfold escChar at hc'
  split_ifs at hc' with e1 e2 e3
  · right
    simp only [List.mem_cons, List.not_mem_nil, or_false] at hc' ⊢
    tauto
  · right
    simp only [List.mem_cons, List.not_mem_nil, or_false] at hc' ⊢
    tauto
  · right
    simp only [List.mem_cons, List.not_mem_nil, or_false] at hc' ⊢
    tauto
  · left
    rw [List.mem_singleton] at hc'
    rw [hc']
    exact hc

theorem escape_ne_nil {cs : List Char} (h : cs ≠ []) : (cs.map escChar).flatten ≠ [] := by
  cases cs with
  | nil => exact absurd rfl h
  | cons c cs =>
    rw [List.map_cons, List.flatten_cons]
    intro h0
    exact escChar_ne_nil c (List.append_eq_nil.mp h0).1

/-! Claim C10: the escaping helper. -/

/-- Claim C10: `html_escape` (quote=False) rewrites `&`, `<`, `>` to entities
but leaves single and double quotes untouched, so quote characters of scraped
content reach the formatted reference and the in-text string verbatim. -/
theorem claim_C10_escape :
    html_escape (some "&") = "&amp;"
    ∧ html_escape (some "<") = "&lt;"
    ∧ html_escape (some ">") = "&gt;"
    ∧ html_escape (some "\u0022") = "\u0022"
    ∧ html_escape (some "\u0027") = "\u0027"
    ∧ (∀ (s : String) (c : Char), (c = '\u0027' ∨ c = '\u0022') → c ∈ s.data →
        c ∈ (html_escape (some s)).data)
    ∧ (∀ (accessed : String) (author : Option String) (year : Option Int)
        (site : Option String) (url t : String) (c : Char),
        (c = '\u0027' ∨ c = '\u0022') → c ∈ t.data →
        c ∈ (build_rmit_web accessed author year (some t) site url).data)
    ∧ substr "\u0027".data (build_intext "O\u0027Brien, K." none).data = true := by
  have hq : ∀ c : Char, (c = '\u0027' ∨ c = '\u0022') →
      c ≠ '&' ∧ c ≠ '<' ∧ c ≠ '>' := by
    rintro c (rfl | rfl) <;> exact ⟨by decide, by decide, by decide⟩
  have hmain : ∀ (s : String) (c : Char), (c = '\u0027' ∨ c = '\u0022') → c ∈ s.data →
      c ∈ (html_escape (some s)).data := by
    intro s c hcq hcs
    obtain ⟨h1, h2, h3⟩ := hq c hcq
    exact mem_escape hcs h1 h2 h3
  refine ⟨by decide, by decide, by decide, by decide, by decide, hmain, ?_, by decide⟩
  intro accessed author year site url t c hcq hct
  have hO : (build_rmit_web accessed author year (some t) site url).data
      = (html_escape author ++ " " ++ yearTag year ++ " <i>").data
        ++ (html_escape (pyOrS (some t) (some url))).data
        ++ ("</i>, " ++ html_escape (pyOrS site (some (netloc url))) ++ " website, accessed "
            ++ accessed ++ ". " ++ html_escape (some url) ++ ".").data := by
    simp [build_rmit_web, List.append_assoc]
  rw [hO]
  have hsel : pyOrS (some t) (some url) = some t := by
    cases ht : t.data with
    | nil => rw [ht] at hct; exact absurd hct (List.not_mem_nil c)
    | cons x xs => simp [pyOrS, ht]
  rw [hsel]
  exact List.mem_append.mpr (Or.inl (List.mem_append.mpr (Or.inr (hmain t c hcq hct))))

/-- Claim C10, witness: a double quote inside a scraped title survives into
the web reference. -/
theorem claim_C10_witness :
    '\u0022' ∈ (build_rmit_web "12 October 2025" none none (some "say \u0022hi\u0022")
      none "https://e.org").data :=
  claim_C10_escape.2.2.2.2.2.2.1 "12 October 2025" none none none "https://e.org"
    "say \u0022hi\u0022" '\u0022' (Or.inr rfl) (by decide)

/-! Claim C6: the author fallback chain. -/

/-- Claim C6, counterexample: `author_display` CAN be empty on the scrape
path — with no author meta, no site name and an empty URL host the chain
yields `None`, and a whitespace-only host yields the empty string (publisher
is never consulted on this path). -/
theorem claim_C6_counterexample :
    author_display_scrape none none "" = none
    ∧ author_display_scrape none none " " = some "" := by
  refine ⟨by decide, by decide⟩

/-- Claim C6, amended: on the scrape path `author_display` is
`format_person_name(author_meta or site_name or host)` — the publisher is not
part of the chain — and is a nonempty string whenever the selected fallback
value contains a non-whitespace character. -/
theorem claim_C6_amended :
    (∀ (am sn : Option String) (host : String),
      author_display_scrape am sn host
        = format_person_name (pyOrS (pyOrS am sn) (some host)))
    ∧ (∀ (am sn : Option String) (host t : String),
        pyOrS (pyOrS am sn) (some host) = some t →
        (∃ c ∈ t.data, pySpace c = false) →
        ∃ r : String, author_display_scrape am sn host = some r ∧ r.data ≠ []) := by
  refine ⟨fun am sn host => rfl, ?_⟩
  intro am sn host t hsel hc
  obtain ⟨c, hct, hcs⟩ := hc
  have hne : t.data ≠ [] := List.ne_nil_of_mem hct
  unfold author_display_scrape format_person_name
  rw [hsel]
  have hv : ∃ v, fCore t.data = some v ∧ v ≠ [] := by
    unfold fCore
    rw [if_neg hne]
    have hps : pystrip t.data ≠ [] :=
      List.ne_nil_of_mem (mem_pystrip hcs hct)
    by_cases h1 : ((pystrip t.data).any (fun c => c == ',')
        || org_markers.any (fun m => substr m ((pystrip t.data).map Char.toLower))) = true
    · rw [if_pos h1]; exact ⟨pystrip t.data, rfl, hps⟩
    · rw [if_neg h1]
      by_cases h2 : (pywords (pystrip t.data)).length < 2
      · rw [if_pos h2]; exact ⟨pystrip t.data, rfl, hps⟩
      · rw [if_neg h2]
        exact ⟨_, rfl, by simp⟩
  obtain ⟨v, hv1, hv2⟩ := hv
  show ∃ r : String, (fCore t.data).map (fun l => String.mk l) = some r ∧ r.data ≠ []
  rw [hv1]
  exact ⟨String.mk v, rfl, hv2⟩

/-- Claim C6, witness: with nothing scraped, the URL host becomes the
author display. -/
theorem claim_C6_witness :
    ∃ r : String, author_display_scrape none none "example.com" = some r ∧ r.data ≠ [] :=
  claim_C6_amended.2 none none "example.com" "example.com" rfl ⟨'e', by decide, by decide⟩

/-! Lemmas for claim C2: comma segments, right strip, and the URL host. -/

theorem mem_takeWhile_mem {p : Char → Bool} {c : Char} :
    ∀ {l : List Char}, c ∈ l.takeWhile p → c ∈ l := by
  intro l h
  induction l with
  | nil => simp at h
  | cons d ds ih =>
    rw [List.takeWhile_cons] at h
    by_cases hd : p d = true
    · rw [if_pos hd] at h
      rcases List.mem_cons.mp h with h1 | h1
      · exact h1 ▸ List.mem_cons_self d ds
      · exact List.mem_cons_of_mem d (ih h1)
    · rw [if_neg hd] at h
      exact absurd h (List.not_mem_nil c)

theorem mem_afterScheme {c : Char} : ∀ {cs : List Char}, c ∈ afterScheme cs → c ∈ cs := by
  intro cs h
  induction cs with
  | nil => simp [afterScheme] at h
  | cons d ds ih =>
    cases ds with
    | nil => simp [afterScheme] at h
    | cons d2 rest =>
      simp only [afterScheme] at h
      by_cases hd : d = '/' ∧ d2 = '/'
      · rw [if_pos hd] at h
        exact List.mem_cons_of_mem d (List.mem_cons_of_mem d2 h)
      · rw [if_neg hd] at h
        exact List.mem_cons_of_mem d (ih h)

theorem mem_netloc {c : Char} {url : String} (h : c ∈ (netloc url).data) : c ∈ url.data := by
  unfold netloc at h
  rw [data_mk] at h
  exact mem_afterScheme (mem_takeWhile_mem h)

theorem rstripL_of_last {cs : List Char} {x : Char} (h : pySpace x = false) :
    rstripL (cs ++ [x]) = cs ++ [x] := by
  unfold rstripL
  rw [List.reverse_append]
  simp only [List.reverse_cons, List.reverse_nil, List.nil_append, List.singleton_append]
  rw [List.dropWhile_cons, if_neg (by rw [h]; exact Bool.false_ne_true)]
  rw [List.reverse_cons, List.reverse_reverse]

theorem splitCommaAux_no : ∀ (xs acc : List Char), (∀ c ∈ xs, c ≠ ',') →
    splitCommaAux xs acc = [acc.reverse ++ xs] := by
  intro xs
  induction xs with
  | nil => intro acc h; simp [splitCommaAux]
  | cons c cs ih =>
    intro acc h
    have hc : c ≠ ',' := h c (List.mem_cons_self c cs)
    simp only [splitCommaAux]
    rw [if_neg hc, ih (c :: acc) (fun x hx => h x (List.mem_cons_of_mem c hx))]
    simp [List.append_assoc]

theorem splitCommaAux_split : ∀ (xs ys acc : List Char), (∀ c ∈ xs, c ≠ ',') →
    splitCommaAux (xs ++ ',' :: ys) acc = (acc.reverse ++ xs) :: splitCommaAux ys [] := by
  intro xs
  induction xs with
  | nil =>
    intro ys acc h
    simp [splitCommaAux]
  | cons c cs ih =>
    intro ys acc h
    have hc : c ≠ ',' := h c (List.mem_cons_self c cs)
    simp only [List.cons_append, splitCommaAux, List.append_eq]
    rw [if_neg hc, ih ys (c :: acc) (fun x hx => h x (List.mem_cons_of_mem c hx))]
    simp [List.append_assoc]

theorem splitComma_cons (X R : List Char) (h : ∀ c ∈ X, c ≠ ',') :
    splitComma (X ++ ',' :: R) = X :: splitComma R := by
  unfold splitComma
  rw [splitCommaAux_split X R [] h]
  simp

theorem splitComma_no (X : List Char) (h : ∀ c ∈ X, c ≠ ',') : splitComma X = [X] := by
  unfold splitComma
  rw [splitCommaAux_no X [] h]
  simp

theorem noDangling_three {X Y Z : List Char}
    (hx : ∀ c ∈ X, c ≠ ',') (hy : ∀ c ∈ Y, c ≠ ',') (hz : ∀ c ∈ Z, c ≠ ',')
    (hx1 : ∃ c ∈ X, pySpace c = false) (hy1 : ∃ c ∈ Y, pySpace c = false)
    (hz1 : ∃ c ∈ Z, pySpace c = false) :
    noDanglingB (X ++ ',' :: (Y ++ ',' :: Z)) = true := by
  unfold noDanglingB
  rw [splitComma_cons X _ hx, splitComma_cons Y _ hy, splitComma_no Z hz]
  simp only [List.all_cons, List.all_nil, Bool.and_true, Bool.and_eq_true]
  obtain ⟨cx, hcx, hcx2⟩ := hx1
  obtain ⟨cy, hcy, hcy2⟩ := hy1
  obtain ⟨cz, hcz, hcz2⟩ := hz1
  exact ⟨List.any_eq_true.mpr ⟨cx, hcx, by rw [hcx2]; rfl⟩,
    List.any_eq_true.mpr ⟨cy, hcy, by rw [hcy2]; rfl⟩,
    List.any_eq_true.mpr ⟨cz, hcz, by rw [hcz2]; rfl⟩⟩

theorem web_props (url accessed : String) (_hne : url.data ≠ [])
    (hurl : ∀ c ∈ url.data, pySpace c = false ∧ c ≠ ',' ∧ c ≠ '&' ∧ c ≠ '<' ∧ c ≠ '>')
    (hacc : ∀ c ∈ accessed.data, c ≠ ',') :
    (build_rmit_web accessed none none none none url).data ≠ []
    ∧ endsDot (build_rmit_web accessed none none none none url) = true
    ∧ substr url.data (build_rmit_web accessed none none none none url).data = true
    ∧ noDanglingB (build_rmit_web accessed none none none none url).data = true := by
  have hescu : html_escape (some url) = url := by
    show String.mk ((url.data.map escChar).flatten) = url
    rw [escape_id (fun c hc => ⟨(hurl c hc).2.2.1, (hurl c hc).2.2.2.1, (hurl c hc).2.2.2.2⟩)]
  have hWs : build_rmit_web accessed none none none none url
      = "" ++ " " ++ "(n.d.)" ++ " <i>" ++ url ++ "</i>, " ++ html_escape (some (netloc url))
        ++ " website, accessed " ++ accessed ++ ". " ++ url ++ "." := by
    unfold build_rmit_web
    rw [show pyOrS none (some url) = some url from rfl,
        show pyOrS none (some (netloc url)) = some (netloc url) from rfl,
        hescu, show yearTag none = "(n.d.)" from rfl,
        show html_escape none = "" from rfl]
  have hu_nc : ∀ c ∈ url.data, c ≠ ',' := fun c hc => (hurl c hc).2.1
  have hnl_nc : ∀ c ∈ (html_escape (some (netloc url))).data, c ≠ ',' := by
    intro c hc
    have hc' : c ∈ ((netloc url).data.map escChar).flatten := hc
    rcases escape_chars hc' with h | h
    · exact hu_nc c (mem_netloc h)
    · intro h0
      subst h0
      exact absurd h (by decide)
  have h3 : (build_rmit_web accessed none none none none url).data
      = (" (n.d.) <i>".data ++ (url.data ++ "</i>".data))
        ++ ',' :: ((" ".data ++ ((html_escape (some (netloc url))).data ++ " website".data))
          ++ ',' :: (" accessed ".data ++ (accessed.data
            ++ (". ".data ++ (url.data ++ ".".data))))) := by
    rw [hWs]
    simp only [String.data_append, List.append_assoc]
    rfl
  have h4 : (build_rmit_web accessed none none none none url).data
      = (" (n.d.) <i>".data ++ (url.data ++ ("</i>, ".data
          ++ ((html_escape (some (netloc url))).data ++ (" website, accessed ".data
            ++ (accessed.data ++ (". ".data ++ url.data))))))) ++ ['.'] := by
    rw [hWs]
    simp only [String.data_append, List.append_assoc]
    rfl
  have h5 : (build_rmit_web accessed none none none none url).data
      = " (n.d.) <i>".data ++ (url.data ++ ("</i>, ".data
          ++ ((html_escape (some (netloc url))).data ++ (" website, accessed ".data
            ++ (accessed.data ++ (". ".data ++ (url.data ++ ".".data))))))) := by
    rw [hWs]
    simp only [String.data_append, List.append_assoc]
    rfl
  refine ⟨?_, ?_, ?_, ?_⟩
  · rw [h4]
    simp
  · unfold endsDot
    rw [h4, List.getLast?_concat]
    rfl
  · rw [h5]
    exact substr_extend _ (substr_head (listStarts_append _ _))
  · rw [h3]
    apply noDangling_three
    · intro c hc
      rcases List.mem_append.mp hc with h | h
      · exact (by decide : ∀ x ∈ " (n.d.) <i>".data, x ≠ ',') c h
      · rcases List.mem_append.mp h with h | h
        · exact hu_nc c h
        · exact (by decide : ∀ x ∈ "</i>".data, x ≠ ',') c h
    · intro c hc
      rcases List.mem_append.mp hc with h | h
      · exact (by decide : ∀ x ∈ " ".data, x ≠ ',') c h
      · rcases List.mem_append.mp h with h | h
        · exact hnl_nc c h
        · exact (by decide : ∀ x ∈ " website".data, x ≠ ',') c h
    · intro c hc
      rcases List.mem_append.mp hc with h | h
      · exact (by decide : ∀ x ∈ " accessed ".data, x ≠ ',') c h
      · rcases List.mem_append.mp h with h | h
        · exact hacc c h
        · rcases List.mem_append.mp h with h | h
          · exact (by decide : ∀ x ∈ ". ".data, x ≠ ',') c h
          · rcases List.mem_append.mp h with h | h
            · exact hu_nc c h
            · exact (by decide : ∀ x ∈ ".".data, x ≠ ',') c h
    · exact ⟨'(', List.mem_append.mpr (Or.inl (by decide)), by decide⟩
    · exact ⟨'w', List.mem_append.mpr (Or.inr (List.mem_append.mpr (Or.inr (by decide)))),
        by decide⟩
    · exact ⟨'a', List.mem_append.mpr (Or.inl (by decide)), by decide⟩

theorem html_escape_id {url : String}
    (hurl : ∀ c ∈ url.data, pySpace c = false ∧ c ≠ ',' ∧ c ≠ '&' ∧ c ≠ '<' ∧ c ≠ '>') :
    html_escape (some url) = url := by
  show String.mk ((url.data.map escChar).flatten) = url
  rw [escape_id (fun c hc => ⟨(hurl c hc).2.2.1, (hurl c hc).2.2.2.1, (hurl c hc).2.2.2.2⟩)]

theorem substr_self (pat : List Char) : substr pat pat = true := by
  have h := listStarts_append pat []
  rw [List.append_nil] at h
  exact substr_head h

theorem jour_props (url accessed : String) (hne : url.data ≠ [])
    (hurl : ∀ c ∈ url.data, pySpace c = false ∧ c ≠ ',' ∧ c ≠ '&' ∧ c ≠ '<' ∧ c ≠ '>')
    (hacc : ∀ c ∈ accessed.data, c ≠ ',') :
    (build_rmit_journal_article accessed none none none none none none none (some url)).data ≠ []
    ∧ endsDot (build_rmit_journal_article accessed none none none none none none none (some url)) = true
    ∧ substr url.data
        (build_rmit_journal_article accessed none none none none none none none (some url)).data = true
    ∧ noDanglingB
        (build_rmit_journal_article accessed none none none none none none none (some url)).data
      = true := by
  have hu_nc : ∀ c ∈ url.data, c ≠ ',' := fun c hc => (hurl c hc).2.1
  have hJs : build_rmit_journal_article accessed none none none none none none none (some url)
      = (if endsDot (pyRstrip (", accessed " ++ accessed ++ ". " ++ html_escape (some url)))
         then " (n.d.) \x27\x27, <i>Journal</i>"
              ++ pyRstrip (", accessed " ++ accessed ++ ". " ++ html_escape (some url))
         else " (n.d.) \x27\x27, <i>Journal</i>"
              ++ pyRstrip (", accessed " ++ accessed ++ ". " ++ html_escape (some url))
              ++ ".") := rfl
  have hEnd : pyRstrip (", accessed " ++ accessed ++ ". " ++ html_escape (some url))
      = ", accessed " ++ accessed ++ ". " ++ url := by
    rw [html_escape_id hurl]
    obtain ⟨Q, c, hq, hcs⟩ : ∃ Q c, url.data = Q ++ [c] ∧ pySpace c = false :=
      ⟨url.data.dropLast, url.data.getLast hne,
        (List.dropLast_append_getLast hne).symm, (hurl _ (List.getLast_mem hne)).1⟩
    unfold pyRstrip
    have hdata : (", accessed " ++ accessed ++ ". " ++ url).data
        = (", accessed ".data ++ (accessed.data ++ (". ".data ++ Q))) ++ [c] := by
      simp only [String.data_append, hq, List.append_assoc]
    rw [hdata, rstripL_of_last hcs, ← hdata]
  have hJs2 : build_rmit_journal_article accessed none none none none none none none (some url)
      = (if endsDot (", accessed " ++ accessed ++ ". " ++ url)
         then " (n.d.) \x27\x27, <i>Journal</i>" ++ (", accessed " ++ accessed ++ ". " ++ url)
         else " (n.d.) \x27\x27, <i>Journal</i>" ++ (", accessed " ++ accessed ++ ". " ++ url)
              ++ ".") := by
    rw [hJs, hEnd]
  by_cases hdot : endsDot (", accessed " ++ accessed ++ ". " ++ url) = true
  · have hJ3 : build_rmit_journal_article accessed none none none none none none none (some url)
        = " (n.d.) \x27\x27, <i>Journal</i>" ++ (", accessed " ++ accessed ++ ". " ++ url) := by
      rw [hJs2, if_pos hdot]
    have hE : (", accessed " ++ accessed ++ ". " ++ url).data.getLast? = some '.' := by
      unfold endsDot at hdot
      cases hEL : (", accessed " ++ accessed ++ ". " ++ url).data.getLast? with
      | none => rw [hEL] at hdot; cases hdot
      | some c =>
        rw [hEL] at hdot
        exact congrArg some (by simpa using hdot)
    refine ⟨?_, ?_, ?_, ?_⟩
    · rw [hJ3]
      simp
    · unfold endsDot
      rw [hJ3, String.data_append, List.getLast?_append, hE]
      rfl
    · have h5 : (build_rmit_journal_article accessed none none none none none none none
          (some url)).data
          = (" (n.d.) \x27\x27, <i>Journal</i>".data
              ++ (", accessed ".data ++ (accessed.data ++ ". ".data))) ++ url.data := by
        rw [hJ3]
        simp only [String.data_append, List.append_assoc]
      rw [h5]
      exact substr_extend _ (substr_self url.data)
    · have h3 : (build_rmit_journal_article accessed none none none none none none none
          (some url)).data
          = " (n.d.) \x27\x27".data
            ++ ',' :: (" <i>Journal</i>".data
              ++ ',' :: (" accessed ".data ++ (accessed.data ++ (". ".data ++ url.data)))) := by
        rw [hJ3]
        simp only [String.data_append, List.append_assoc]
        rfl
      rw [h3]
      apply noDangling_three
      · exact (by decide : ∀ x ∈ " (n.d.) \x27\x27".data, x ≠ ',')
      · exact (by decide : ∀ x ∈ " <i>Journal</i>".data, x ≠ ',')
      · intro c hc
        rcases List.mem_append.mp hc with h | h
        · exact (by decide : ∀ x ∈ " accessed ".data, x ≠ ',') c h
        · rcases List.mem_append.mp h with h | h
          · exact hacc c h
          · rcases List.mem_append.mp h with h | h
            · exact (by decide : ∀ x ∈ ". ".data, x ≠ ',') c h
            · exact hu_nc c h
      · exact ⟨'(', by decide, by decide⟩
      · exact ⟨'i', by decide, by decide⟩
      · exact ⟨'a', List.mem_append.mpr (Or.inl (by decide)), by decide⟩
  · have hJ3 : build_rmit_journal_article accessed none none none none none none none (some url)
        = " (n.d.) \x27\x27, <i>Journal</i>" ++ (", accessed " ++ accessed ++ ". " ++ url)
          ++ "." := by
      rw [hJs2, if_neg hdot]
    refine ⟨?_, ?_, ?_, ?_⟩
    · rw [hJ3]
      simp
    · have h4 : (build_rmit_journal_article accessed none none none none none none none
          (some url)).data
          = (" (n.d.) \x27\x27, <i>Journal</i>, accessed ".data
              ++ (accessed.data ++ (". ".data ++ url.data))) ++ ['.'] := by
        rw [hJ3]
        simp only [String.data_append, List.append_assoc]
        rfl
      unfold endsDot
      rw [h4, List.getLast?_concat]
      rfl
    · have h5 : (build_rmit_journal_article accessed none none none none none none none
          (some url)).data
          = (" (n.d.) \x27\x27, <i>Journal</i>".data
              ++ (", accessed ".data ++ (accessed.data ++ ". ".data)))
            ++ (url.data ++ ".".data) := by
        rw [hJ3]
        simp only [String.data_append, List.append_assoc]
      rw [h5]
      exact substr_extend _ (substr_head (listStarts_append _ _))
    · have h3 : (build_rmit_journal_article accessed none none none none none none none
          (some url)).data
          = " (n.d.) \x27\x27".data
            ++ ',' :: (" <i>Journal</i>".data
              ++ ',' :: (" accessed ".data
                ++ (accessed.data ++ (". ".data ++ (url.data ++ ".".data))))) := by
        rw [hJ3]
        simp only [String.data_append, List.append_assoc]
        rfl
      rw [h3]
      apply noDangling_three
      · exact (by decide : ∀ x ∈ " (n.d.) \x27\x27".data, x ≠ ',')
      · exact (by decide : ∀ x ∈ " <i>Journal</i>".data, x ≠ ',')
      · intro c hc
        rcases List.mem_append.mp hc with h | h
        · exact (by decide : ∀ x ∈ " accessed ".data, x ≠ ',') c h
        · rcases List.mem_append.mp h with h | h
          · exact hacc c h
          · rcases List.mem_append.mp h with h | h
            · exact (by decide : ∀ x ∈ ". ".data, x ≠ ',') c h
            · rcases List.mem_append.mp h with h | h
              · exact hu_nc c h
              · exact (by decide : ∀ x ∈ ".".data, x ≠ ',') c h
      · exact ⟨'(', by decide, by decide⟩
      · exact ⟨'i', by decide, by decide⟩
      · exact ⟨'a', List.mem_append.mpr (Or.inl (by decide)), by decide⟩

theorem wp_props (url accessed : String)
    (hurl : ∀ c ∈ url.data, pySpace c = false ∧ c ≠ ',' ∧ c ≠ '&' ∧ c ≠ '<' ∧ c ≠ '>')
    (hacc : ∀ c ∈ accessed.data, c ≠ ',') :
    (build_rmit_working_paper accessed none none none none none url).data ≠ []
    ∧ endsDot (build_rmit_working_paper accessed none none none none none url) = true
    ∧ substr url.data (build_rmit_working_paper accessed none none none none none url).data
      = true
    ∧ noDanglingB (build_rmit_working_paper accessed none none none none none url).data
      = false := by
  have hu_nc : ∀ c ∈ url.data, c ≠ ',' := fun c hc => (hurl c hc).2.1
  have hPs : build_rmit_working_paper accessed none none none none none url
      = "" ++ " " ++ "(n.d.)" ++ " <i>" ++ url ++ "</i>, " ++ "" ++ ", " ++ ""
        ++ ", accessed " ++ accessed ++ ". " ++ url ++ "." := by
    unfold build_rmit_working_paper
    rw [show pyOrS none (some url) = some url from rfl, html_escape_id hurl,
        show yearTag none = "(n.d.)" from rfl, show html_escape none = "" from rfl]
  refine ⟨?_, ?_, ?_, ?_⟩
  · have h4 : (build_rmit_working_paper accessed none none none none none url).data
        = (" (n.d.) <i>".data ++ (url.data ++ ("</i>, , , accessed ".data
            ++ (accessed.data ++ (". ".data ++ url.data))))) ++ ['.'] := by
      rw [hPs]
      simp only [String.data_append, List.append_assoc]
      rfl
    rw [h4]
    simp
  · have h4 : (build_rmit_working_paper accessed none none none none none url).data
        = (" (n.d.) <i>".data ++ (url.data ++ ("</i>, , , accessed ".data
            ++ (accessed.data ++ (". ".data ++ url.data))))) ++ ['.'] := by
      rw [hPs]
      simp only [String.data_append, List.append_assoc]
      rfl
    unfold endsDot
    rw [h4, List.getLast?_concat]
    rfl
  · have h5 : (build_rmit_working_paper accessed none none none none none url).data
        = " (n.d.) <i>".data ++ (url.data ++ ("</i>, , , accessed ".data
            ++ (accessed.data ++ (". ".data ++ (url.data ++ ".".data))))) := by
      rw [hPs]
      simp only [String.data_append, List.append_assoc]
      rfl
    rw [h5]
    exact substr_extend _ (substr_head (listStarts_append _ _))
  · have h3 : (build_rmit_working_paper accessed none none none none none url).data
        = (" (n.d.) <i>".data ++ (url.data ++ "</i>".data))
          ++ ',' :: ([' ']
            ++ ',' :: ([' ']
              ++ ',' :: (" accessed ".data
                ++ (accessed.data ++ (". ".data ++ (url.data ++ ".".data)))))) := by
      rw [hPs]
      simp only [String.data_append, List.append_assoc]
      rfl
    rw [h3]
    have hX : ∀ c ∈ " (n.d.) <i>".data ++ (url.data ++ "</i>".data), c ≠ ',' := by
      intro c hc
      rcases List.mem_append.mp hc with h | h
      · exact (by decide : ∀ x ∈ " (n.d.) <i>".data, x ≠ ',') c h
      · rcases List.mem_append.mp h with h | h
        · exact hu_nc c h
        · exact (by decide : ∀ x ∈ "</i>".data, x ≠ ',') c h
    have hZ : ∀ c ∈ " accessed ".data
        ++ (accessed.data ++ (". ".data ++ (url.data ++ ".".data))), c ≠ ',' := by
      intro c hc
      rcases List.mem_append.mp hc with h | h
      · exact (by decide : ∀ x ∈ " accessed ".data, x ≠ ',') c h
      · rcases List.mem_append.mp h with h | h
        · exact hacc c h
        · rcases List.mem_append.mp h with h | h
          · exact (by decide : ∀ x ∈ ". ".data, x ≠ ',') c h
          · rcases List.mem_append.mp h with h | h
            · exact hu_nc c h
            · exact (by decide : ∀ x ∈ ".".data, x ≠ ',') c h
    unfold noDanglingB
    rw [splitComma_cons _ _ hX, splitComma_cons [' '] _ (by decide),
      splitComma_cons [' '] _ (by decide), splitComma_no _ hZ]
    refine List.all_eq_false.mpr ⟨[' '], by simp, by decide⟩

/-- Claim C2, counterexample: with every optional field absent the
working-paper formatter does NOT produce a well-formed sentence — the empty
series and publisher leave adjacent empty comma-separated segments
(`..., , , accessed ...`) — although its output is still non-empty, ends in a
period and contains the locator. -/
theorem claim_C2_counterexample :
    noDanglingB (build_rmit_working_paper "12 October 2025" none none none none none
      "https://example.org/x").data = false
    ∧ (build_rmit_working_paper "12 October 2025" none none none none none
        "https://example.org/x").data ≠ []
    ∧ endsDot (build_rmit_working_paper "12 October 2025" none none none none none
        "https://example.org/x") = true
    ∧ substr "https://example.org/x".data
        (build_rmit_working_paper "12 October 2025" none none none none none
          "https://example.org/x").data = true := by
  refine ⟨by decide, by decide, by decide, by decide⟩

/-- Claim C2, amended: for a record whose only populated field is the locator
(a nonempty URL/DOI without whitespace, commas, or the HTML-escaped
characters `&`, `<`, `>`, and an access date without commas), the web and
journal-article formatters return a non-empty string that ends in a period,
contains the locator, and has no adjacent empty comma-separated segments;
the working-paper formatter returns a non-empty string that ends in a period
and contains the locator, but DOES have adjacent empty comma-separated
segments (the empty series and publisher slots). -/
theorem claim_C2_amended (url accessed : String) (hne : url.data ≠ [])
    (hurl : ∀ c ∈ url.data, pySpace c = false ∧ c ≠ ',' ∧ c ≠ '&' ∧ c ≠ '<' ∧ c ≠ '>')
    (hacc : ∀ c ∈ accessed.data, c ≠ ',') :
    ((build_rmit_web accessed none none none none url).data ≠ []
      ∧ endsDot (build_rmit_web accessed none none none none url) = true
      ∧ substr url.data (build_rmit_web accessed none none none none url).data = true
      ∧ noDanglingB (build_rmit_web accessed none none none none url).data = true)
    ∧ ((build_rmit_journal_article accessed none none none none none none none
          (some url)).data ≠ []
      ∧ endsDot (build_rmit_journal_article accessed none none none none none none none
          (some url)) = true
      ∧ substr url.data (build_rmit_journal_article accessed none none none none none none
          none (some url)).data = true
      ∧ noDanglingB (build_rmit_journal_article accessed none none none none none none
          none (some url)).data = true)
    ∧ ((build_rmit_working_paper accessed none none none none none url).data ≠ []
      ∧ endsDot (build_rmit_working_paper accessed none none none none none url) = true
      ∧ substr url.data
          (build_rmit_working_paper accessed none none none none none url).data = true
      ∧ noDanglingB
          (build_rmit_working_paper accessed none none none none none url).data = false) :=
  ⟨web_props url accessed hne hurl hacc, jour_props url accessed hne hurl hacc,
    wp_props url accessed hurl hacc⟩

/-- Claim C2, witness: the amended theorem at a concrete locator and access
date. -/
theorem claim_C2_witness :
    noDanglingB (build_rmit_web "12 October 2025" none none none none
      "https://doi.org/10.1/x").data = true
    ∧ endsDot (build_rmit_journal_article "12 October 2025" none none none none none none
      none (some "https://doi.org/10.1/x")) = true :=
  ⟨(claim_C2_amended "https://doi.org/10.1/x" "12 October 2025" (by decide) (by decide)
      (by decide)).1.2.2.2,
   (claim_C2_amended "https://doi.org/10.1/x" "12 October 2025" (by decide) (by decide)
      (by decide)).2.1.2.1⟩

end CiteBot
